import Mathlib

/-!
Verification of the ocgis chunked-regridding decomposition against its
natural-language specification.

The development shallowly embeds the decisive code paths:

* `ocgis/driver/nc_scrip.py` — `DriverScripNetcdf._gs_iter_dst_grid_slices_`
  (unstructured destination decomposition by unique center-latitude values)
  and `DriverScripNetcdf._gs_nchunks_dst_` (default chunk count).
* `ocli.py` — the `chunked_regrid` command's validation and control flow,
  including `_is_subdir_`.
* Components whose implementation lives outside the provided sources
  (the structured-grid slice iterator, the weight merger, the buffered
  subsetter's containment check, and the weighted inserter) are modelled
  from the specification text, as marked in their doc comments.

Coordinate values are embedded as integers: the Python code only compares
coordinate values for equality and order, so any linearly ordered type with
decidable equality is a faithful carrier.  Weights are embedded as rationals.
-/

namespace Ocgis

/-- Modelled from the spec: `create_unique_global_array`
(`ocgis.util.helpers`, not under the provided sources) computes the globally
unique values of an array ("gather the globally unique values of one
designated coordinate axis").  In the serial shallow embedding this is
deduplication of the value list. -/
def create_unique_global_array (l : List Int) : List Int :=
  l.dedup

/-- The sorted unique center values: `ucenter_lat` after the gather and the
`ucenter_lat.sort()` call in `DriverScripNetcdf._gs_iter_dst_grid_slices_`. -/
def ucenterSorted (l : List Int) : List Int :=
  (create_unique_global_array l).mergeSort (· ≤ ·)

/-- Piece sizes produced by `numpy.array_split(arr, n)` on an array of length
`len`: the first `len % n` pieces have length `len / n + 1`, the remaining
`n - len % n` pieces have length `len / n`. -/
def arraySplitSizes (len n : Nat) : List Nat :=
  List.replicate (len % n) (len / n + 1) ++ List.replicate (n - len % n) (len / n)

/-- Cut a list into consecutive pieces with the given sizes. -/
def splitWithSizes : List Int → List Nat → List (List Int)
  | _, [] => []
  | l, s :: rest => l.take s :: splitWithSizes (l.drop s) rest

/-- Embedding of `numpy.array_split(l, n)`. -/
def array_split (l : List Int) (n : Nat) : List (List Int) :=
  splitWithSizes l (arraySplitSizes l.length n)

/-- Embedding of the boolean selection-array construction in
`_gs_iter_dst_grid_slices_`:
`select = np.zeros_like(center_lat, dtype=bool)` followed by
`select = np.logical_or(select, center_lat == v)` for each `v` in the
chunk's unique-value split. -/
def makeSelect (center_lat : List Int) (ucenter_split : List Int) : List Bool :=
  ucenter_split.foldl
    (fun acc v => List.zipWith (· || ·) acc (center_lat.map (fun c => c == v)))
    (List.replicate center_lat.length false)

/-- Embedding of `DriverScripNetcdf._gs_iter_dst_grid_slices_`: the unique
center-latitude values are sorted and split into `nchunks` groups with
`np.array_split`, and each group yields the boolean selection of the elements
whose center latitude lies in the group. -/
def gs_iter_dst_grid_slices (nchunks : Nat) (center_lat : List Int) : List (List Bool) :=
  (array_split (ucenterSorted center_lat) nchunks).map (makeSelect center_lat)

/-- Entry `i` of selection `k` yielded by `gs_iter_dst_grid_slices`. -/
def selectedIn (nchunks : Nat) (center_lat : List Int) (k i : Nat) : Bool :=
  ((gs_iter_dst_grid_slices nchunks center_lat).getD k []).getD i false

/-- Embedding of `DriverScripNetcdf._gs_nchunks_dst_`: the default chunk
count for an unstructured destination grid is the number of globally unique
center-latitude values when that number is below 100, and 100 otherwise. -/
def gs_nchunks_dst (y : List Int) : Nat :=
  let total := (create_unique_global_array y).length
  if total < 100 then total else 100

lemma length_arraySplitSizes (len n : Nat) (h : 0 < n) :
    (arraySplitSizes len n).length = n := by
  have h2 : len % n < n := Nat.mod_lt _ h
  simp [arraySplitSizes]
  omega

lemma sum_arraySplitSizes (len n : Nat) (h : 0 < n) :
    (arraySplitSizes len n).sum = len := by
  have h1 := Nat.div_add_mod len n
  have h2 : len % n < n := Nat.mod_lt _ h
  have h3 : n - len % n + len % n = n := Nat.sub_add_cancel h2.le
  have h4 : (arraySplitSizes len n).sum
      = (len % n) * (len / n + 1) + (n - len % n) * (len / n) := by
    simp [arraySplitSizes, List.sum_replicate, smul_eq_mul]
  rw [h4]
  calc (len % n) * (len / n + 1) + (n - len % n) * (len / n)
      = (n - len % n + len % n) * (len / n) + len % n := by ring
    _ = n * (len / n) + len % n := by rw [h3]
    _ = len := h1

lemma length_splitWithSizes (l : List Int) (sizes : List Nat) :
    (splitWithSizes l sizes).length = sizes.length := by
  induction sizes generalizing l with
  | nil => simp [splitWithSizes]
  | cons s rest ih => simp [splitWithSizes, ih]

lemma flatten_splitWithSizes (sizes : List Nat) (l : List Int) :
    (splitWithSizes l sizes).flatten = l.take sizes.sum := by
  induction sizes generalizing l with
  | nil => simp [splitWithSizes]
  | cons s rest ih =>
      simp only [splitWithSizes, List.flatten_cons, ih, List.sum_cons]
      rw [List.take_add]

lemma length_array_split (l : List Int) (n : Nat) (h : 0 < n) :
    (array_split l n).length = n := by
  rw [array_split, length_splitWithSizes, length_arraySplitSizes _ _ h]

lemma flatten_array_split (l : List Int) (n : Nat) (h : 0 < n) :
    (array_split l n).flatten = l := by
  rw [array_split, flatten_splitWithSizes, sum_arraySplitSizes _ _ h]
  exact List.take_of_length_le le_rfl

lemma nodup_ucenterSorted (l : List Int) : (ucenterSorted l).Nodup :=
  (List.mergeSort_perm (create_unique_global_array l) _).nodup_iff.mpr (List.nodup_dedup l)

lemma mem_ucenterSorted {a : Int} {l : List Int} : a ∈ ucenterSorted l ↔ a ∈ l := by
  rw [ucenterSorted, (List.mergeSort_perm (create_unique_global_array l) _).mem_iff]
  exact List.mem_dedup

lemma foldl_select_eq (lat : List Int) (vs : List Int) (f : Int → Bool) :
    vs.foldl (fun acc v => List.zipWith (· || ·) acc (lat.map (fun c => c == v)))
      (lat.map f)
      = lat.map (fun c => f c || vs.any (fun v => c == v)) := by
  induction vs generalizing f with
  | nil => simp
  | cons v rest ih =>
      have hz : List.zipWith (· || ·) (lat.map f) (lat.map (fun c => c == v))
          = lat.map (fun c => f c || (c == v)) := by
        rw [List.zipWith_map, List.zipWith_same]
      rw [List.foldl_cons, hz, ih]
      simp [Bool.or_assoc]

lemma makeSelect_eq_map (lat split : List Int) :
    makeSelect lat split = lat.map (fun c => split.any (fun v => c == v)) := by
  have h0 : List.replicate lat.length false = lat.map (fun _ => false) :=
    (List.map_const' lat false).symm
  rw [makeSelect, h0, foldl_select_eq]
  simp

lemma getD_makeSelect (lat split : List Int) (i : Nat) (hi : i < lat.length) :
    (makeSelect lat split).getD i false = true ↔ lat.getD i 0 ∈ split := by
  rw [makeSelect_eq_map]
  have hlen : i < (lat.map (fun c => split.any (fun v => c == v))).length := by
    simpa using hi
  rw [List.getD_eq_getElem _ _ hlen, List.getD_eq_getElem _ _ hi]
  simp

lemma selectedIn_iff (nchunks : Nat) (center_lat : List Int) (k i : Nat)
    (hn : 0 < nchunks) (hk : k < nchunks) (hi : i < center_lat.length) :
    selectedIn nchunks center_lat k i = true ↔
      center_lat.getD i 0 ∈ (array_split (ucenterSorted center_lat) nchunks).getD k [] := by
  have hks : k < (array_split (ucenterSorted center_lat) nchunks).length := by
    rwa [length_array_split _ _ hn]
  have hmap : (gs_iter_dst_grid_slices nchunks center_lat).getD k []
      = makeSelect center_lat ((array_split (ucenterSorted center_lat) nchunks).getD k []) := by
    have hkm : k < (gs_iter_dst_grid_slices nchunks center_lat).length := by
      simpa [gs_iter_dst_grid_slices] using hks
    rw [List.getD_eq_getElem _ _ hkm, List.getD_eq_getElem _ _ hks]
    simp [gs_iter_dst_grid_slices]
  rw [selectedIn, hmap]
  exact getD_makeSelect _ _ _ hi

lemma pairwise_disjoint_array_split (l : List Int) (n : Nat) (h : 0 < n)
    (hnd : l.Nodup) : (array_split l n).Pairwise List.Disjoint := by
  have hflat : (array_split l n).flatten.Nodup := by
    rwa [flatten_array_split _ _ h]
  exact (List.nodup_flatten.mp hflat).2

/-- C1: for every unstructured destination grid and every positive requested
chunk count, the boolean selections yielded by `_gs_iter_dst_grid_slices_`
form an exact partition of the destination elements: every element is
selected by exactly one chunk. -/
theorem unstructured_selection_partition (center_lat : List Int) (nchunks : Nat)
    (hn : 0 < nchunks) (i : Nat) (hi : i < center_lat.length) :
    ∃! k, k < nchunks ∧ selectedIn nchunks center_lat k i = true := by
  set us := ucenterSorted center_lat with hus
  set splits := array_split us nchunks with hsplits
  have hlen : splits.length = nchunks := length_array_split _ _ hn
  have hmem : center_lat.getD i 0 ∈ us := by
    rw [hus, mem_ucenterSorted]
    rw [List.getD_eq_getElem _ _ hi]
    exact List.getElem_mem hi
  have hflat : splits.flatten = us := flatten_array_split _ _ hn
  have hmemf : center_lat.getD i 0 ∈ splits.flatten := by rwa [hflat]
  obtain ⟨s, hs, hvs⟩ := List.mem_flatten.mp hmemf
  obtain ⟨k, hk, hks⟩ := List.mem_iff_getElem.mp hs
  have hdisj : splits.Pairwise List.Disjoint :=
    pairwise_disjoint_array_split _ _ hn (by rw [hus]; exact nodup_ucenterSorted center_lat)
  refine ⟨k, ⟨by omega, ?_⟩, ?_⟩
  · rw [selectedIn_iff _ _ _ _ hn (by omega) hi, ← hsplits]
    have hgd : splits.getD k [] = s := by
      rw [List.getD_eq_getElem _ _ (show k < splits.length by omega)]
      exact hks
    rw [hgd]
    exact hvs
  · rintro k' ⟨hk', hsel'⟩
    rw [selectedIn_iff _ _ _ _ hn hk' hi, ← hsplits] at hsel'
    have hk'lt : k' < splits.length := by omega
    rw [List.getD_eq_getElem _ _ hk'lt] at hsel'
    by_contra hne
    have hdisj' := List.pairwise_iff_getElem.mp hdisj
    rcases Nat.lt_or_ge k' k with hlt | hge
    · exact hdisj' k' k hk'lt (by omega) hlt hsel' (hks.symm ▸ hvs)
    · have hlt : k < k' := by omega
      exact hdisj' k k' (by omega) hk'lt hlt (hks.symm ▸ hvs) hsel'

/-- Witness for C1 at a concrete input: four elements with three distinct
center latitudes split into two chunks. -/
theorem unstructured_selection_partition_witness :
    ∃! k, k < 2 ∧ selectedIn 2 [3, 1, 3, 2] k 0 = true :=
  unstructured_selection_partition [3, 1, 3, 2] 2 (by decide) 0 (by decide)

/-- C5: an element of an unstructured destination grid is selected by chunk
`k` exactly when its center-latitude value is a member of chunk `k`'s
unique-value group, and consequently two elements sharing the same
center-latitude value are always assigned to the same chunks. -/
theorem unstructured_duplicates_share_chunk (center_lat : List Int) (nchunks : Nat)
    (hn : 0 < nchunks) (i j k : Nat) (hi : i < center_lat.length)
    (hj : j < center_lat.length) (hk : k < nchunks)
    (hij : center_lat.getD i 0 = center_lat.getD j 0) :
    (selectedIn nchunks center_lat k i = true ↔
      center_lat.getD i 0 ∈ (array_split (ucenterSorted center_lat) nchunks).getD k []) ∧
    selectedIn nchunks center_lat k i = selectedIn nchunks center_lat k j := by
  have h1 := selectedIn_iff nchunks center_lat k i hn hk hi
  have h2 := selectedIn_iff nchunks center_lat k j hn hk hj
  refine ⟨h1, ?_⟩
  rw [hij] at h1
  cases hbi : selectedIn nchunks center_lat k i <;>
    cases hbj : selectedIn nchunks center_lat k j <;> simp_all

/-- Witness for C5 at a concrete input: five elements over three unique
latitudes split into two chunks (the chunk count does not divide the
unique-value count); elements 0 and 1 share latitude 0. -/
theorem unstructured_duplicates_share_chunk_witness :
    (selectedIn 2 [0, 0, 7, 7, 9] 0 0 = true ↔
      (0 : Int) ∈ (array_split (ucenterSorted [0, 0, 7, 7, 9]) 2).getD 0 []) ∧
    selectedIn 2 [0, 0, 7, 7, 9] 0 0 = selectedIn 2 [0, 0, 7, 7, 9] 0 1 :=
  unstructured_duplicates_share_chunk [0, 0, 7, 7, 9] 2 (by decide) 0 1 0
    (by decide) (by decide) (by decide) (by decide)

/-- The sentence of C8 as stated: the default chunk count is 100 when the
grid element count exceeds 100, and otherwise is the number of globally
unique coordinate values. -/
def elementCountClaim (y : List Int) : Prop :=
  if 100 < y.length then gs_nchunks_dst y = 100
  else gs_nchunks_dst y = (create_unique_global_array y).length

set_option maxRecDepth 8000 in
/-- Counterexample to C8 as stated: a grid of 101 elements that all share a
single center-latitude value has an element count exceeding 100, yet
`_gs_nchunks_dst_` returns 1 (the unique-value count), not 100. -/
theorem elementCountClaim_false :
    ¬ elementCountClaim (List.replicate 101 0) := by
  unfold elementCountClaim
  rw [if_pos (by decide : 100 < (List.replicate 101 (0 : Int)).length)]
  decide

/-- C8 amended: the default chunk count computed by `_gs_nchunks_dst_` is the
minimum of the number of globally unique coordinate values and the fixed
ceiling 100 — i.e. 100 when the unique-value count is at least 100, and one
chunk per unique coordinate value otherwise. -/
theorem gs_nchunks_dst_eq_min (y : List Int) :
    gs_nchunks_dst y = min (create_unique_global_array y).length 100 := by
  rw [gs_nchunks_dst]
  split <;> omega

/-- Modelled from the spec: the structured-grid branch of
`GridChunker.iter_dst_grid_slices` (`ocgis/spatial/grid_chunker.py`, not under
the provided sources).  "Partition each axis independently into `cy`
(resp. `cx`) contiguous index ranges as close to equal length as possible;
the last range in each axis absorbs any remainder."  A range is the
half-open index interval `[start, stop)`. -/
def axisRanges (n c : Nat) : List (Nat × Nat) :=
  (List.range c).map
    (fun k => (k * (n / c), if k = c - 1 then n else (k + 1) * (n / c)))

/-- Modelled from the spec: the full chunk set for a structured destination
grid of shape `(ny, nx)` with counts `(cy, cx)` is the Cartesian product of
the per-axis ranges, enumerated in row-major order (y outer, x inner).
Each entry is `(yRange, xRange)`. -/
def iter_dst_grid_slices (ny nx cy cx : Nat) : List ((Nat × Nat) × (Nat × Nat)) :=
  (axisRanges ny cy).flatMap
    (fun ry => (axisRanges nx cx).map (fun rx => (ry, rx)))

/-- C4: decomposing a structured destination grid of shape `(360, 720)` with
counts `(2, 3)` yields exactly the six chunks with y ranges `[0,180)`,
`[180,360)` and x ranges `[0,240)`, `[240,480)`, `[480,720)`, enumerated in
row-major order (y outer, x inner). -/
theorem structured_decomposition_example :
    iter_dst_grid_slices 360 720 2 3 =
      [((0, 180), (0, 240)), ((0, 180), (240, 480)), ((0, 180), (480, 720)),
       ((180, 360), (0, 240)), ((180, 360), (240, 480)), ((180, 360), (480, 720))] := by
  decide

/-!
Embedding of the `chunked_regrid` command in `ocli.py`.  A filesystem path is
embedded as its list of components after `os.path.realpath` (absolute,
normalized, so no component is `..` or contains a separator).
-/

/-- Length of the longest common prefix of two component lists. -/
def commonPrefixLen : List String → List String → Nat
  | a :: as, b :: bs => if a = b then commonPrefixLen as bs + 1 else 0
  | _, _ => 0

/-- Embedding of `os.path.relpath(path, start)` on normalized component
lists: climb from `start` to the common ancestor with `..` components, then
descend into `path`; the empty relative path is `.`. -/
def relpath (path start : List String) : List String :=
  let c := commonPrefixLen path start
  let rel := List.replicate (start.length - c) ".." ++ path.drop c
  if rel.isEmpty then ["."] else rel

/-- Whether the string form of a relative component list starts with `../`
(`os.pardir + os.sep`): the first component is `..` and a separator follows,
i.e. there is at least a second component. -/
def startsWithPardirSep : List String → Bool
  | c :: _ :: _ => c == ".."
  | _ => false

/-- Embedding of `_is_subdir_(path, potential_subpath)` in `ocli.py`:
`relative = os.path.relpath(path, potential_subpath)` and the result is
`not relative.startswith(os.pardir + os.sep)`. -/
def is_subdir (path potential_subpath : List String) : Bool :=
  !(startsWithPardirSep (relpath path potential_subpath))

/-- The `ValueError`s raised by `chunked_regrid`. -/
inductive CliError where
  | weightRequiredForMerge
  | weightRequiredForGenweights
  | workingDirMustNotExist
  | mergePathInWorkingDir
  deriving DecidableEq

/-- The externally visible effects performed by `chunked_regrid`, in program
order. -/
inductive CliAction where
  | mkdtemp (wd : List String)
  | makeDirs (wd : List String)
  | writeSpatialSubset (path : List String)
  | writeSubsets
  | writeEsmfWeights
  | createMergedWeightFile
  | removeWorkingDir (wd : List String)
  deriving DecidableEq

/-- The configuration consumed by `chunked_regrid` after option parsing.
`wdExists` records whether a filesystem entry already exists at the supplied
working directory; `tmpdir` is the path `tempfile.mkdtemp` would create when
no working directory is supplied. -/
structure CliArgs where
  nchunks_dst : Option (List Nat)
  merge : Bool
  weight : Option (List String)
  genweights : Bool
  spatial_subset : Bool
  wd : Option (List String)
  wdExists : Bool
  persist : Bool
  tmpdir : List String

/-- The effects of `chunked_regrid` after the working directory `wd` is
established: the optional spatial subset, the subset writing or direct
weight generation, the merged-weight-file creation, and the working
directory removal. -/
def regridActions (a : CliArgs) (wd : List String) : List CliAction :=
  (if a.spatial_subset then [CliAction.writeSpatialSubset (wd ++ ["spatial_subset.nc"])] else [])
    ++ (if !a.spatial_subset && a.nchunks_dst.isSome then [CliAction.writeSubsets]
        else if a.genweights then [CliAction.writeEsmfWeights] else [])
    ++ (if a.merge && !a.spatial_subset then [CliAction.createMergedWeightFile] else [])
    ++ (if !a.persist then [CliAction.removeWorkingDir wd] else [])

/-- The merged-weight-path guard and everything after it, with the working
directory resolved to `wd` and the effects `acts` already performed. -/
def afterWd (a : CliArgs) (wd : List String) (acts : List CliAction) :
    List CliAction × Option CliError :=
  if (a.merge && !a.spatial_subset || a.spatial_subset && a.genweights)
      && is_subdir wd (a.weight.getD []) then
    (acts, some CliError.mergePathInWorkingDir)
  else
    (acts ++ regridActions a wd, none)

/-- Embedding of the `chunked_regrid` command: the effects it performs in
order, together with the error that aborts it, if any. -/
def chunked_regrid (a : CliArgs) : List CliAction × Option CliError :=
  if a.merge && !a.spatial_subset && a.weight.isNone then
    ([], some CliError.weightRequiredForMerge)
  else if a.spatial_subset && a.genweights && a.weight.isNone then
    ([], some CliError.weightRequiredForGenweights)
  else
    match a.wd with
    | none => afterWd a a.tmpdir [CliAction.mkdtemp a.tmpdir]
    | some w =>
        if a.wdExists then ([], some CliError.workingDirMustNotExist)
        else afterWd a w [CliAction.makeDirs w]

/-- The weight-path validation at the top of `chunked_regrid` passes. -/
def weightArgsValid (a : CliArgs) : Bool :=
  !(a.merge && !a.spatial_subset && a.weight.isNone)
    && !(a.spatial_subset && a.genweights && a.weight.isNone)

/-- C9: when a working-directory path is explicitly supplied, the run fails
with the "Working directory 'wd' must not exist." error before performing any
effect if a filesystem entry already exists there, and otherwise its first
effect is to create the directory (nesting as needed, via `os.makedirs`). -/
theorem working_directory_must_not_exist (a : CliArgs) (w : List String)
    (hv : weightArgsValid a = true) (hw : a.wd = some w) :
    (a.wdExists = true → chunked_regrid a = ([], some CliError.workingDirMustNotExist)) ∧
    (a.wdExists = false → (chunked_regrid a).1.head? = some (CliAction.makeDirs w)) := by
  rw [weightArgsValid, Bool.and_eq_true, Bool.not_eq_true', Bool.not_eq_true'] at hv
  obtain ⟨h1, h2⟩ := hv
  constructor <;> intro hex
  · simp [chunked_regrid, h1, h2, hw, hex]
  · simp only [chunked_regrid, h1, h2, hw, hex]
    simp only [Bool.false_eq_true, if_false]
    unfold afterWd
    split <;> simp

/-- A concrete argument set for the C9 witness: valid weight path, explicit
working directory that already exists on the filesystem. -/
def c9args : CliArgs :=
  { nchunks_dst := some [2, 3], merge := true, weight := some ["w.nc"],
    genweights := true, spatial_subset := false, wd := some ["tmp", "run"],
    wdExists := true, persist := false, tmpdir := ["tmp", "x"] }

/-- Witness for C9: with a valid weight path and an explicit working
directory, an existing entry aborts the run and a missing one leads with
directory creation. -/
theorem working_directory_must_not_exist_witness :
    (c9args.wdExists = true →
      chunked_regrid c9args = ([], some CliError.workingDirMustNotExist)) ∧
    (c9args.wdExists = false →
      (chunked_regrid c9args).1.head? = some (CliAction.makeDirs ["tmp", "run"])) :=
  working_directory_must_not_exist c9args ["tmp", "run"] (by decide) (by decide)

lemma createMergedWeightFile_not_mem_regridActions (a : CliArgs) (wd : List String)
    (h : a.spatial_subset = true) :
    CliAction.createMergedWeightFile ∉ regridActions a wd := by
  simp only [regridActions, h, Bool.not_true, Bool.false_and, Bool.and_false,
    Bool.false_eq_true, if_false, if_true]
  intro hmem
  rcases List.mem_append.mp hmem with hmem | hmem
  · rcases List.mem_append.mp hmem with hmem | hmem
    · rcases List.mem_append.mp hmem with hmem | hmem
      · simp at hmem
      · split at hmem <;> simp at hmem
    · simp at hmem
  · split at hmem <;> simp at hmem

lemma createMergedWeightFile_not_mem_afterWd (a : CliArgs) (wd : List String)
    (acts : List CliAction) (h : a.spatial_subset = true)
    (hacts : CliAction.createMergedWeightFile ∉ acts) :
    CliAction.createMergedWeightFile ∉ (afterWd a wd acts).1 := by
  unfold afterWd
  split
  · simpa using hacts
  · simp only [List.mem_append]
    rintro (hmem | hmem)
    · exact hacts hmem
    · exact createMergedWeightFile_not_mem_regridActions a wd h hmem

/-- C10: whenever `chunked_regrid` is invoked with `spatial_subset` enabled,
the merged-weight-file creation step is never performed, regardless of the
`merge` flag and of every other option. -/
theorem spatial_subset_never_merges (a : CliArgs) (h : a.spatial_subset = true) :
    CliAction.createMergedWeightFile ∉ (chunked_regrid a).1 := by
  unfold chunked_regrid
  split
  · simp
  · split
    · simp
    · split
      · exact createMergedWeightFile_not_mem_afterWd a a.tmpdir _ h (by simp)
      · split
        · simp
        · exact createMergedWeightFile_not_mem_afterWd a _ _ h (by simp)

/-- Witness for C10: a spatial-subset invocation with merging left enabled
performs no merged-weight-file creation. -/
theorem spatial_subset_never_merges_witness :
    CliAction.createMergedWeightFile ∉
      (chunked_regrid
        { nchunks_dst := some [2, 3], merge := true, weight := some ["w.nc"],
          genweights := true, spatial_subset := true, wd := some ["tmp", "run"],
          wdExists := false, persist := false, tmpdir := ["tmp", "x"] }).1 :=
  spatial_subset_never_merges _ (by decide)

/-- The working directory of the C7 failing input. -/
def c7wd : List String := ["tmp", "run"]

/-- The merged-weight output path of the C7 failing input: nested two levels
inside the working directory. -/
def c7weight : List String := ["tmp", "run", "sub", "weights.nc"]

/-- The C7 failing input: merging enabled, no spatial subset, and the
merged-weight output path inside the working directory. -/
def c7args : CliArgs :=
  { nchunks_dst := some [2, 3], merge := true, weight := some c7weight,
    genweights := true, spatial_subset := false, wd := some c7wd,
    wdExists := false, persist := true, tmpdir := ["tmp", "x"] }

/-- C7 evaluated at the failing input: the merged-weight path resides inside
the working directory, yet `_is_subdir_` reports `false` — its swapped
`relpath` arguments only flag paths directly inside the working directory —
so the run performs subset writing and merged-weight creation instead of
aborting with a `ValueError`.  For contrast, a weight path directly inside
the working directory is flagged and does abort the run. -/
theorem merge_path_guard_misses_nested_path :
    c7weight = c7wd ++ ["sub", "weights.nc"] ∧
    is_subdir c7wd c7weight = false ∧
    chunked_regrid c7args =
      ([CliAction.makeDirs c7wd, CliAction.writeSubsets,
        CliAction.createMergedWeightFile], none) ∧
    is_subdir c7wd (c7wd ++ ["weights.nc"]) = true ∧
    (chunked_regrid { c7args with weight := some (c7wd ++ ["weights.nc"]) }).2
      = some CliError.mergePathInWorkingDir := by
  decide

/-!
Weight merging.  `GridChunker.create_merged_weight_file` is not under the
provided sources; the merger is modelled from the specification (§4.4
WeightMerger).
-/

/-- Modelled from the spec: one chunk's sparse weight artifact together with
its index-file entry — the `(local_row, local_col, weight)` triplets and the
`destination_global_ids` / `source_global_ids` arrays used to remap them. -/
structure WeightChunk where
  dst_gids : List Nat
  src_gids : List Nat
  triplets : List (Nat × Nat × ℚ)

/-- Modelled from the spec: remap `local_row -> destination_global_ids[local_row]`
and `local_col -> source_global_ids[local_col]`. -/
def remapChunk (c : WeightChunk) : List (Nat × Nat × ℚ) :=
  c.triplets.map (fun t => (c.dst_gids.getD t.1 0, c.src_gids.getD t.2.1 0, t.2.2))

/-- Modelled from the spec: `create_merged_weight_file` concatenates the
remapped triplets across all chunks with no deduplication, producing one
global matrix in the same triplet form. -/
def create_merged_weight_file (cs : List WeightChunk) : List (Nat × Nat × ℚ) :=
  (cs.map remapChunk).flatten

/-- Sum of the weights of all triplets whose global row is `g`. -/
def rowSum (ts : List (Nat × Nat × ℚ)) (g : Nat) : ℚ :=
  ((ts.filter (fun t => t.1 == g)).map (fun t => t.2.2)).sum

lemma rowSum_append (l1 l2 : List (Nat × Nat × ℚ)) (g : Nat) :
    rowSum (l1 ++ l2) g = rowSum l1 g + rowSum l2 g := by
  simp [rowSum, List.filter_append]

lemma rowSum_eq_zero (ts : List (Nat × Nat × ℚ)) (g : Nat)
    (h : ∀ t ∈ ts, t.1 ≠ g) : rowSum ts g = 0 := by
  have hf : ts.filter (fun t => t.1 == g) = [] := by
    rw [List.filter_eq_nil_iff]
    intro t ht
    simpa using h t ht
  simp [rowSum, hf]

lemma exists_row_of_rowSum_ne_zero (ts : List (Nat × Nat × ℚ)) (g : Nat)
    (h : rowSum ts g ≠ 0) : ∃ t ∈ ts, t.1 = g := by
  by_contra hno
  push_neg at hno
  exact h (rowSum_eq_zero ts g hno)

lemma row_remapChunk_mem (c : WeightChunk)
    (hvalid : ∀ t ∈ c.triplets, t.1 < c.dst_gids.length) :
    ∀ t ∈ remapChunk c, t.1 ∈ c.dst_gids := by
  intro t ht
  obtain ⟨t0, ht0, rfl⟩ := List.mem_map.mp ht
  have hlt := hvalid t0 ht0
  show c.dst_gids.getD t0.1 0 ∈ c.dst_gids
  rw [List.getD_eq_getElem _ _ hlt]
  exact List.getElem_mem hlt

lemma rowSum_remapChunk_zero (c : WeightChunk) (g : Nat)
    (hvalid : ∀ t ∈ c.triplets, t.1 < c.dst_gids.length)
    (hg : g ∉ c.dst_gids) : rowSum (remapChunk c) g = 0 := by
  refine rowSum_eq_zero _ _ (fun t ht => ?_)
  intro hrow
  exact hg (hrow ▸ row_remapChunk_mem c hvalid t ht)

lemma rowSum_merged_zero (cs : List WeightChunk) (g : Nat)
    (hvalid : ∀ c ∈ cs, ∀ t ∈ c.triplets, t.1 < c.dst_gids.length)
    (h : ∀ c ∈ cs, g ∉ c.dst_gids) : rowSum (create_merged_weight_file cs) g = 0 := by
  induction cs with
  | nil => simp [create_merged_weight_file, rowSum]
  | cons c rest ih =>
      have hc : create_merged_weight_file (c :: rest)
          = remapChunk c ++ create_merged_weight_file rest := by
        simp [create_merged_weight_file]
      rw [hc, rowSum_append,
        rowSum_remapChunk_zero c g (hvalid c (by simp)) (h c (by simp)),
        ih (fun c' hc' => hvalid c' (by simp [hc'])) (fun c' hc' => h c' (by simp [hc']))]
      ring

lemma rowSum_merged_of_mem (cs : List WeightChunk) (g : Nat) (c0 : WeightChunk)
    (hvalid : ∀ c ∈ cs, ∀ t ∈ c.triplets, t.1 < c.dst_gids.length)
    (hdisj : cs.Pairwise (fun c1 c2 => ∀ x ∈ c1.dst_gids, x ∉ c2.dst_gids))
    (hones : ∀ c ∈ cs, ∀ x ∈ c.dst_gids, rowSum (remapChunk c) x = 1)
    (hc0 : c0 ∈ cs) (hgc0 : g ∈ c0.dst_gids) :
    rowSum (create_merged_weight_file cs) g = 1 := by
  induction cs with
  | nil => cases hc0
  | cons c rest ih =>
      have hc : create_merged_weight_file (c :: rest)
          = remapChunk c ++ create_merged_weight_file rest := by
        simp [create_merged_weight_file]
      rw [hc, rowSum_append]
      obtain ⟨hhead, htail⟩ := List.pairwise_cons.mp hdisj
      rcases List.mem_cons.mp hc0 with rfl | hmem
      · rw [hones c0 (by simp) g hgc0,
          rowSum_merged_zero rest g (fun c' hc' => hvalid c' (by simp [hc']))
            (fun c' hc' => hhead c' hc' g hgc0)]
        ring
      · have hgnotc : g ∉ c.dst_gids := by
          intro hgc
          exact hhead c0 hmem g hgc hgc0
        rw [rowSum_remapChunk_zero c g (hvalid c (by simp)) hgnotc,
          ih (fun c' hc' => hvalid c' (by simp [hc'])) htail
            (fun c' hc' => hones c' (by simp [hc'])) hmem]
        ring

/-- C2: if the chunks' destination global ids are pairwise disjoint and
cover the full destination grid `[0, N)`, and each chunk's weights sum to 1
per destination row, then the merged global sparse matrix contains every
destination row and its per-row weight sums equal 1 exactly — hence within
the claimed 1e-14 absolute tolerance. -/
theorem merged_weight_row_sums (cs : List WeightChunk) (N : Nat) (g : Nat)
    (hvalid : ∀ c ∈ cs, ∀ t ∈ c.triplets, t.1 < c.dst_gids.length)
    (hdisj : cs.Pairwise (fun c1 c2 => ∀ x ∈ c1.dst_gids, x ∉ c2.dst_gids))
    (hcover : ∀ x, x < N → ∃ c ∈ cs, x ∈ c.dst_gids)
    (hones : ∀ c ∈ cs, ∀ x ∈ c.dst_gids, rowSum (remapChunk c) x = 1)
    (hg : g < N) :
    rowSum (create_merged_weight_file cs) g = 1 ∧
    |rowSum (create_merged_weight_file cs) g - 1| < 1 / 10 ^ 14 ∧
    ∃ t ∈ create_merged_weight_file cs, t.1 = g := by
  obtain ⟨c0, hc0, hgc0⟩ := hcover g hg
  have h1 := rowSum_merged_of_mem cs g c0 hvalid hdisj hones hc0 hgc0
  refine ⟨h1, ?_, ?_⟩
  · rw [h1]
    norm_num
  · exact exists_row_of_rowSum_ne_zero _ _ (by rw [h1]; norm_num)

/-- Chunks for the C2 witness: two chunks, each owning one destination row
of a two-row destination grid, with per-row weights summing to 1. -/
def c2chunks : List WeightChunk :=
  [⟨[0], [0, 1], [(0, 0, 1/2), (0, 1, 1/2)]⟩,
   ⟨[1], [1, 2], [(0, 0, 1/4), (0, 1, 3/4)]⟩]

/-- Witness for C2 at a concrete input: the merged matrix of `c2chunks` has
row 1 present with weight sum exactly 1. -/
theorem merged_weight_row_sums_witness :
    rowSum (create_merged_weight_file c2chunks) 1 = 1 ∧
    |rowSum (create_merged_weight_file c2chunks) 1 - 1| < 1 / 10 ^ 14 ∧
    ∃ t ∈ create_merged_weight_file c2chunks, t.1 = 1 :=
  merged_weight_row_sums c2chunks 2 1 (by decide) (by decide) (by decide)
    (by
      intro c hc x hx
      simp only [c2chunks, List.mem_cons, List.not_mem_nil, or_false] at hc
      rcases hc with rfl | rfl <;>
        (simp only [List.mem_cons, List.not_mem_nil, or_false] at hx
         subst hx
         norm_num [rowSum, remapChunk, List.getD]))
    (by decide)

/-!
Buffered subsetting and the containment check.  `GridChunker.write_subsets`
and `does_contain` are not under the provided sources; they are modelled
from the specification (§4.2 BufferedSubsetter) and the oracle in
`test_grid_chunker.py` (`does_contain(src_envelope_global,
dst_envelope_global)` on the global bounding boxes).
-/

/-- An axis-aligned bounding box `(minx, miny, maxx, maxy)`, the shape of
`extent_global` in the source system. -/
structure Box where
  xmin : ℚ
  ymin : ℚ
  xmax : ℚ
  ymax : ℚ
  deriving DecidableEq

/-- Modelled from the spec: `does_contain` verifies that the container
extent geometrically contains the containee extent. -/
def does_contain (container containee : Box) : Bool :=
  decide (container.xmin ≤ containee.xmin ∧ containee.xmax ≤ container.xmax ∧
    container.ymin ≤ containee.ymin ∧ containee.ymax ≤ container.ymax)

/-- The point `(x, y)` lies in the box. -/
def pointInBox (b : Box) (x y : ℚ) : Prop :=
  b.xmin ≤ x ∧ x ≤ b.xmax ∧ b.ymin ≤ y ∧ y ≤ b.ymax

/-- The two boxes intersect. -/
def intersects (a b : Box) : Bool :=
  decide (a.xmin ≤ b.xmax ∧ b.xmin ≤ a.xmax ∧ a.ymin ≤ b.ymax ∧ b.ymin ≤ a.ymax)

/-- Modelled from the spec: expand the bounding box symmetrically by the
buffer distance in all directions. -/
def bufferBox (b : Box) (d : ℚ) : Box :=
  ⟨b.xmin - d, b.ymin - d, b.xmax + d, b.ymax + d⟩

/-- Modelled from the spec: intersect the buffered box against the full
source grid — keep the source cells whose footprint intersects it. -/
def get_intersects (cells : List Box) (bbox : Box) : List Box :=
  cells.filter (fun c => intersects c bbox)

/-- The bounding box of the union of two boxes. -/
def boxUnion (a b : Box) : Box :=
  ⟨min a.xmin b.xmin, min a.ymin b.ymin, max a.xmax b.xmax, max a.ymax b.ymax⟩

/-- The global extent of a cell collection: the bounding box of all cells,
`none` for an empty collection. -/
def extent_global : List Box → Option Box
  | [] => none
  | c :: rest => some (rest.foldl boxUnion c)

/-- Modelled from the spec: the per-chunk subset step of `write_subsets` —
select the source cells intersecting the buffered destination extent and,
when `check_contains` is enabled, raise a containment error unless the
selected region's extent contains the unbuffered destination extent. -/
def subsetSrcWithCheck (cells : List Box) (dstExtent : Box) (d : ℚ)
    (check_contains : Bool) : Except Unit (List Box) :=
  let sel := get_intersects cells (bufferBox dstExtent d)
  if check_contains then
    match extent_global sel with
    | none => Except.error ()
    | some e => if does_contain e dstExtent then Except.ok sel else Except.error ()
  else
    Except.ok sel

/-- `e` dominates `c`: the bounding box `e` contains the box `c`. -/
def envelopes (e c : Box) : Prop :=
  e.xmin ≤ c.xmin ∧ e.ymin ≤ c.ymin ∧ c.xmax ≤ e.xmax ∧ c.ymax ≤ e.ymax

lemma envelopes_refl (c : Box) : envelopes c c :=
  ⟨le_refl _, le_refl _, le_refl _, le_refl _⟩

lemma envelopes_trans {a b c : Box} (h1 : envelopes a b) (h2 : envelopes b c) :
    envelopes a c :=
  ⟨h1.1.trans h2.1, h1.2.1.trans h2.2.1, h2.2.2.1.trans h1.2.2.1, h2.2.2.2.trans h1.2.2.2⟩

lemma envelopes_boxUnion_left (a b : Box) : envelopes (boxUnion a b) a :=
  ⟨min_le_left _ _, min_le_left _ _, le_max_left _ _, le_max_left _ _⟩

lemma envelopes_boxUnion_right (a b : Box) : envelopes (boxUnion a b) b :=
  ⟨min_le_right _ _, min_le_right _ _, le_max_right _ _, le_max_right _ _⟩

lemma foldl_boxUnion_envelopes (rest : List Box) (init : Box) :
    ∀ c, (c = init ∨ c ∈ rest) → envelopes (rest.foldl boxUnion init) c := by
  induction rest generalizing init with
  | nil =>
      rintro c (rfl | hc)
      · exact envelopes_refl c
      · cases hc
  | cons b rest ih =>
      rintro c (rfl | hc)
      · exact envelopes_trans (ih (boxUnion c b) (boxUnion c b) (Or.inl rfl))
          (envelopes_boxUnion_left c b)
      · rcases List.mem_cons.mp hc with rfl | hc
        · exact envelopes_trans (ih (boxUnion init c) (boxUnion init c) (Or.inl rfl))
            (envelopes_boxUnion_right init c)
        · exact ih (boxUnion init b) c (Or.inr hc)

lemma extent_global_envelopes {cells : List Box} {e : Box}
    (he : extent_global cells = some e) : ∀ c ∈ cells, envelopes e c := by
  cases cells with
  | nil => cases he
  | cons c0 rest =>
      intro c hc
      obtain rfl : rest.foldl boxUnion c0 = e := by
        simpa [extent_global] using he
      rcases List.mem_cons.mp hc with rfl | hc
      · exact foldl_boxUnion_envelopes rest c c (Or.inl rfl)
      · exact foldl_boxUnion_envelopes rest c0 c (Or.inr hc)

lemma corner_cell_selected {cells : List Box} {dst c : Box} {d x y : ℚ}
    (hd : 0 ≤ d)
    (hc : c ∈ cells) (hx : dst.xmin ≤ x ∧ x ≤ dst.xmax)
    (hy : dst.ymin ≤ y ∧ y ≤ dst.ymax) (hpt : pointInBox c x y) :
    c ∈ get_intersects cells (bufferBox dst d) := by
  refine List.mem_filter.mpr ⟨hc, ?_⟩
  obtain ⟨h1, h2, h3, h4⟩ := hpt
  simp only [intersects, bufferBox, decide_eq_true_eq]
  constructor
  · linarith
  constructor
  · linarith
  constructor
  · linarith
  · linarith

/-- C3: if the buffer distance is nonnegative and the source grid covers the
lower-left and upper-right corners of the destination chunk's extent, then
the extent of the buffered-bbox source subset contains the destination
extent, and the subset step with `check_contains` enabled succeeds (no
containment error is raised). -/
theorem buffered_subset_contains_destination (cells : List Box) (dst : Box)
    (d : ℚ) (cll cur : Box) (hd : 0 ≤ d)
    (hwf : dst.xmin ≤ dst.xmax ∧ dst.ymin ≤ dst.ymax)
    (hll : cll ∈ cells ∧ pointInBox cll dst.xmin dst.ymin)
    (hur : cur ∈ cells ∧ pointInBox cur dst.xmax dst.ymax) :
    ∃ e, extent_global (get_intersects cells (bufferBox dst d)) = some e ∧
      does_contain e dst = true ∧
      subsetSrcWithCheck cells dst d true =
        Except.ok (get_intersects cells (bufferBox dst d)) := by
  have hllsel : cll ∈ get_intersects cells (bufferBox dst d) :=
    corner_cell_selected hd hll.1 ⟨le_refl _, hwf.1⟩ ⟨le_refl _, hwf.2⟩ hll.2
  have hursel : cur ∈ get_intersects cells (bufferBox dst d) :=
    corner_cell_selected hd hur.1 ⟨hwf.1, le_refl _⟩ ⟨hwf.2, le_refl _⟩ hur.2
  obtain ⟨e, he⟩ : ∃ e, extent_global (get_intersects cells (bufferBox dst d)) = some e := by
    cases hsel : get_intersects cells (bufferBox dst d) with
    | nil => rw [hsel] at hllsel; cases hllsel
    | cons c0 rest => exact ⟨rest.foldl boxUnion c0, rfl⟩
  have hell := extent_global_envelopes he cll hllsel
  have heur := extent_global_envelopes he cur hursel
  obtain ⟨hll1, _, hll3, _⟩ := hll.2
  obtain ⟨_, hur2, _, hur4⟩ := hur.2
  have hcontain : does_contain e dst = true := by
    simp only [does_contain, decide_eq_true_eq]
    exact ⟨hell.1.trans hll1, hur2.trans heur.2.2.1, hell.2.1.trans hll3,
      hur4.trans heur.2.2.2⟩
  refine ⟨e, he, hcontain, ?_⟩
  rw [subsetSrcWithCheck]
  simp only [he, hcontain, if_true]

/-- Source cells for the C3 witness: a 2 x 2 block of unit-square-like cells
covering `[0,4] x [0,4]`. -/
def c3cells : List Box :=
  [⟨0, 0, 2, 2⟩, ⟨2, 0, 4, 2⟩, ⟨0, 2, 2, 4⟩, ⟨2, 2, 4, 4⟩]

/-- Witness for C3 at a concrete input: destination extent `[1,3] x [1,3]`
with buffer distance 1 over `c3cells`. -/
theorem buffered_subset_contains_destination_witness :
    ∃ e, extent_global (get_intersects c3cells (bufferBox ⟨1, 1, 3, 3⟩ 1)) = some e ∧
      does_contain e ⟨1, 1, 3, 3⟩ = true ∧
      subsetSrcWithCheck c3cells ⟨1, 1, 3, 3⟩ 1 true =
        Except.ok (get_intersects c3cells (bufferBox ⟨1, 1, 3, 3⟩ 1)) :=
  buffered_subset_contains_destination c3cells ⟨1, 1, 3, 3⟩ 1 ⟨0, 0, 2, 2⟩ ⟨2, 2, 4, 4⟩
    (by norm_num)
    (by constructor <;> norm_num)
    (by
      constructor
      · simp [c3cells]
      · refine ⟨by norm_num, by norm_num, by norm_num, by norm_num⟩)
    (by
      constructor
      · simp [c3cells]
      · refine ⟨by norm_num, by norm_num, by norm_num, by norm_num⟩)

/-!
Weighted insertion.  `GridChunker.insert_weighted` is not under the provided
sources; it is modelled from the specification (§4.5 WeightedInserter).
-/

/-- Modelled from the spec: write one chunk's regridded destination values
into the master output, each value at the position given by its destination
global id. -/
def insertChunk (master : List ℚ) (gids : List Nat) (vals : List ℚ) : List ℚ :=
  (gids.zip vals).foldl (fun m p => m.set p.1 p.2) master

/-- Modelled from the spec: `insert_weighted` scatters every chunk's
destination values into the master output, addressed by destination global
identifier. -/
def insert_weighted (master : List ℚ) (chunks : List (List Nat × List ℚ)) : List ℚ :=
  chunks.foldl (fun m c => insertChunk m c.1 c.2) master

lemma getD_set (l : List ℚ) (i j : Nat) (v : ℚ) :
    (l.set i v).getD j 0 = if i = j ∧ i < l.length then v else l.getD j 0 := by
  rcases eq_or_ne i j with rfl | hne
  · by_cases hlt : i < l.length
    · simp [List.getD_eq_getElem?_getD, List.getElem?_set_self, List.getElem?_eq_getElem,
        hlt]
    · have hset : l.set i v = l := List.set_eq_of_length_le (by omega)
      simp [hset, hlt]
  · simp [List.getD_eq_getElem?_getD, List.getElem?_set_ne hne, hne]

lemma length_foldl_set (ps : List (Nat × ℚ)) (m : List ℚ) :
    (ps.foldl (fun m p => m.set p.1 p.2) m).length = m.length := by
  induction ps generalizing m with
  | nil => rfl
  | cons p ps ih => simp [List.foldl_cons, ih]

lemma length_insertChunk (m : List ℚ) (gids : List Nat) (vals : List ℚ) :
    (insertChunk m gids vals).length = m.length :=
  length_foldl_set _ _

lemma length_insert_weighted (m : List ℚ) (chunks : List (List Nat × List ℚ)) :
    (insert_weighted m chunks).length = m.length := by
  induction chunks generalizing m with
  | nil => rfl
  | cons c rest ih =>
      show (insert_weighted (insertChunk m c.1 c.2) rest).length = m.length
      rw [ih, length_insertChunk]

lemma insertChunk_getD (m : List ℚ) (gids : List Nat) (f : Nat → ℚ)
    (hval : ∀ id ∈ gids, id < m.length) (j : Nat) :
    (insertChunk m gids (gids.map f)).getD j 0 = if j ∈ gids then f j else m.getD j 0 := by
  induction gids generalizing m with
  | nil => simp [insertChunk]
  | cons g rest ih =>
      have hg : g < m.length := hval g (by simp)
      have hstep : insertChunk m (g :: rest) ((g :: rest).map f)
          = insertChunk (m.set g (f g)) rest (rest.map f) := by
        simp [insertChunk]
      rw [hstep, ih (m.set g (f g))
        (fun id hid => by rw [List.length_set]; exact hval id (by simp [hid]))]
      by_cases hjr : j ∈ rest
      · simp [hjr]
      · by_cases hjg : j = g
        · subst hjg
          simp [hjr, getD_set, hg]
        · have hne : ¬(g = j ∧ g < m.length) := fun h => hjg h.1.symm
          rw [if_neg hjr, getD_set, if_neg hne, if_neg (by simp [hjg, hjr])]

lemma insert_weighted_getD (orig : List ℚ) (chunks : List (List Nat × List ℚ))
    (m : List ℚ) (hlen : m.length = orig.length)
    (hids : ∀ c ∈ chunks, ∀ id ∈ c.1, id < orig.length)
    (hvals : ∀ c ∈ chunks, c.2 = c.1.map (fun id => orig.getD id 0)) (j : Nat) :
    (insert_weighted m chunks).getD j 0
      = if ∃ c ∈ chunks, j ∈ c.1 then orig.getD j 0 else m.getD j 0 := by
  induction chunks generalizing m with
  | nil => simp [insert_weighted]
  | cons c rest ih =>
      have hstep : insert_weighted m (c :: rest)
          = insert_weighted (insertChunk m c.1 c.2) rest := rfl
      have hc2 : c.2 = c.1.map (fun id => orig.getD id 0) := hvals c (by simp)
      have hlen2 : (insertChunk m c.1 c.2).length = orig.length := by
        rw [length_insertChunk, hlen]
      have hik : (insertChunk m c.1 c.2).getD j 0
          = if j ∈ c.1 then orig.getD j 0 else m.getD j 0 := by
        rw [hc2]
        exact insertChunk_getD m c.1 _
          (fun id hid => by rw [hlen]; exact hids c (by simp) id hid) j
      rw [hstep, ih (insertChunk m c.1 c.2) hlen2
        (fun c' hc' => hids c' (by simp [hc']))
        (fun c' hc' => hvals c' (by simp [hc']))]
      by_cases hjr : ∃ c' ∈ rest, j ∈ c'.1
      · obtain ⟨c', hc', hj⟩ := hjr
        rw [if_pos ⟨c', hc', hj⟩, if_pos ⟨c', by simp [hc'], hj⟩]
      · rw [if_neg hjr, hik]
        by_cases hjc : j ∈ c.1
        · rw [if_pos hjc, if_pos ⟨c, by simp, hjc⟩]
        · rw [if_neg hjc, if_neg]
          rintro ⟨c', hc', hj⟩
          rcases List.mem_cons.mp hc' with rfl | hc'
          · exact hjc hj
          · exact hjr ⟨c', hc', hj⟩

/-- C6: inserting each chunk's destination values — equal to the original
un-chunked values at the chunk's destination global ids — into a master
output pre-sized to the full destination grid and initialized to zero
reproduces the original values at every global id, and in particular the
total sum equals the original total sum. -/
theorem insert_weighted_roundtrip (orig : List ℚ) (chunks : List (List Nat × List ℚ))
    (hids : ∀ c ∈ chunks, ∀ id ∈ c.1, id < orig.length)
    (hvals : ∀ c ∈ chunks, c.2 = c.1.map (fun id => orig.getD id 0))
    (hcover : ∀ j, j < orig.length → ∃ c ∈ chunks, j ∈ c.1) :
    insert_weighted (List.replicate orig.length 0) chunks = orig ∧
    (insert_weighted (List.replicate orig.length 0) chunks).sum = orig.sum := by
  have hlen0 : (List.replicate orig.length (0 : ℚ)).length = orig.length := by simp
  have heq : insert_weighted (List.replicate orig.length 0) chunks = orig := by
    apply List.ext_getElem
    · rw [length_insert_weighted, hlen0]
    · intro i h1 h2
      have hgd := insert_weighted_getD orig chunks _ hlen0 hids hvals i
      rw [if_pos (hcover i h2)] at hgd
      rw [← List.getD_eq_getElem _ 0 h1, hgd, List.getD_eq_getElem _ 0 h2]
  exact ⟨heq, by rw [heq]⟩

/-- Chunks for the C6 witness: destination values `[3, 5, 7]` scattered over
two chunks owning ids `{0, 2}` and `{1}`. -/
def c6chunks : List (List Nat × List ℚ) :=
  [([0, 2], [3, 7]), ([1], [5])]

/-- Witness for C6 at a concrete input: inserting `c6chunks` into a
zero-initialized master of length 3 reproduces `[3, 5, 7]`. -/
theorem insert_weighted_roundtrip_witness :
    insert_weighted (List.replicate ([3, 5, 7] : List ℚ).length 0) c6chunks = [3, 5, 7] ∧
    (insert_weighted (List.replicate ([3, 5, 7] : List ℚ).length 0) c6chunks).sum
      = ([3, 5, 7] : List ℚ).sum :=
  insert_weighted_roundtrip [3, 5, 7] c6chunks (by decide)
    (by
      intro c hc
      simp only [c6chunks, List.mem_cons, List.not_mem_nil, or_false] at hc
      rcases hc with rfl | rfl <;> norm_num [List.getD])
    (by decide)

end Ocgis
